import Mathlib

/-!
Verification of the sync-to-qiita repository: a shallow embedding of the
HTML→Markdown converter (`src/scripts/utils/html-to-markdown.js`) and of the
incremental sync engine (`src/unnamed/part_000`, the microCMS→Qiita sync
script), together with proofs settling the frozen claims about them.

Strings are modelled as Lean `String`/`List Char`; the JavaScript regular
expressions used by the source are compiled into explicit executable scanners
over `List Char`.
-/

namespace SyncToQiita

/-! ## JavaScript string primitives -/

/-- Whitespace test modelling the JavaScript `\s` character class and
`String.prototype.trim` on the characters that occur in this program
(space, tab, line feed, carriage return, vertical tab, form feed). -/
def isJsWs (c : Char) : Bool :=
  c == ' ' || c == '\t' || c == '\n' || c == '\r' || c == '\x0b' || c == '\x0c'

/-- JavaScript `String.prototype.trim` on character lists: drop whitespace
from both ends. -/
def jsTrim (l : List Char) : List Char :=
  ((l.dropWhile isJsWs).reverse.dropWhile isJsWs).reverse

/-- JavaScript `String.prototype.trim` on strings. -/
def trimS (s : String) : String :=
  ⟨jsTrim s.data⟩

/-- JavaScript `.replace(/^\n+/, '')`: drop the leading run of line feeds. -/
def stripLeadingNL (l : List Char) : List Char :=
  l.dropWhile (fun c => c == '\n')

/-- JavaScript `.replace(/\n+$/, '')`: drop the trailing run of line feeds. -/
def stripTrailingNL (l : List Char) : List Char :=
  (l.reverse.dropWhile (fun c => c == '\n')).reverse

/-- JavaScript `.replace(/\n+$/, '\n')` from the list-item rule: collapse a
trailing run of line feeds to a single one. -/
def collapseTrailingNL (l : List Char) : List Char :=
  if l.getLast? == some '\n' then stripTrailingNL l ++ ['\n'] else l

/-- Worker for `.replace(/\n{3,}/g, '\n\n')`: `n` counts the pending run of
line feeds seen so far; a run of three or more is emitted as exactly two. -/
def collapse3Go : Nat → List Char → List Char
  | n, [] => List.replicate (min n 2) '\n'
  | n, c :: t =>
    if c == '\n' then collapse3Go (n + 1) t
    else List.replicate (min n 2) '\n' ++ c :: collapse3Go 0 t

/-- JavaScript `.replace(/\n{3,}/g, '\n\n')`: collapse every run of three or
more line feeds to exactly two. -/
def collapse3 (l : List Char) : List Char :=
  collapse3Go 0 l

/-! ## Converter: fixBoldSpacing (`html-to-markdown.js` lines 148–159)

The three regular expressions of `fixBoldSpacing` are compiled to scanners:
`/\*\*[^*]*?\*\*/g` (collect bold parts), `/\*\*\s+[^*]*?\s+\*\*/` (test a
part for bad spacing) and `.replace(/\*\*\s+([^*]+?)\s+\*\*/g, '**$1**')`. -/

/-- After an opening `**`, match the lazy `[^*]*?` followed by `**`: consume
non-asterisk characters until the first asterisk, which must be doubled.
Returns the middle and the remainder after the closing `**`. -/
def closeBold : List Char → Option (List Char × List Char)
  | [] => none
  | c :: t =>
    if c == '*' then
      match t with
      | c2 :: t2 => if c2 == '*' then some ([], t2) else none
      | [] => none
    else
      match closeBold t with
      | some (mid, rest) => some (c :: mid, rest)
      | none => none

/-- Fueled worker for the matches of `/\*\*[^*]*?\*\*/g`: scan left to
right, on failure at an opening position advance by one character, on
success continue after the closing `**`. The fuel only bounds the number of
scanning steps; each step strictly shortens the list, so fuel equal to the
input length is always enough. -/
def findBoldPartsGo : Nat → List Char → List (List Char)
  | 0, _ => []
  | _ + 1, [] => []
  | fuel + 1, '*' :: '*' :: t2 =>
    match closeBold t2 with
    | some (mid, rest) =>
      ('*' :: '*' :: (mid ++ ['*', '*'])) :: findBoldPartsGo fuel rest
    | none => findBoldPartsGo fuel ('*' :: t2)
  | fuel + 1, _ :: t => findBoldPartsGo fuel t

/-- All matches of `/\*\*[^*]*?\*\*/g` (the `boldParts` of `fixBoldSpacing`). -/
def findBoldParts (l : List Char) : List (List Char) :=
  findBoldPartsGo l.length l

/-- Test of `/\*\*\s+[^*]*?\s+\*\*/` anchored at the head of the list: an
opening `**`, then a non-asterisk run of length at least two that starts and
ends in whitespace, then a closing `**`. -/
def badAtStart (l : List Char) : Bool :=
  match l with
  | '*' :: '*' :: t =>
    let run := t.takeWhile (fun c => c != '*')
    let rest0 := t.dropWhile (fun c => c != '*')
    (match rest0 with | '*' :: '*' :: _ => true | _ => false)
    && decide (2 ≤ run.length)
    && (match run.head? with | some c => isJsWs c | none => false)
    && (match run.getLast? with | some c => isJsWs c | none => false)
  | _ => false

/-- Test of `/\*\*\s+[^*]*?\s+\*\*/` anywhere in the list. -/
def hasBadAnywhere : List Char → Bool
  | [] => false
  | c :: t => badAtStart (c :: t) || hasBadAnywhere t

/-- Attempted match of `\s+([^*]+?)\s+\*\*` directly after an opening `**`:
the non-asterisk run up to the first asterisk must have length at least
three, start and end in whitespace, and be followed by `**`. The capture is
the run with the greedy whitespace prefix and the maximal whitespace suffix
removed (for an all-whitespace run, backtracking leaves a single whitespace
character). Returns the capture and the remainder after the closing `**`. -/
def tryBadMatch (t : List Char) : Option (List Char × List Char) :=
  let run := t.takeWhile (fun c => c != '*')
  let rest0 := t.dropWhile (fun c => c != '*')
  match rest0 with
  | '*' :: '*' :: rest =>
    if decide (3 ≤ run.length)
        && (match run.head? with | some c => isJsWs c | none => false)
        && (match run.getLast? with | some c => isJsWs c | none => false) then
      if run.all isJsWs then
        some ((run.drop (run.length - 2)).take 1, rest)
      else
        some (jsTrim run, rest)
    else none
  | _ => none

/-- Fueled worker for the global replace
`.replace(/\*\*\s+([^*]+?)\s+\*\*/g, '**$1**')`: scan left to right; at each
opening `**` try `tryBadMatch`; on success emit `**`, the capture and `**`
and continue after the match, otherwise advance one character. Fuel equal to
the input length is always enough. -/
def replaceBadGo : Nat → List Char → List Char
  | 0, l => l
  | _ + 1, [] => []
  | fuel + 1, '*' :: '*' :: t2 =>
    match tryBadMatch t2 with
    | some (cap, rest) => '*' :: '*' :: (cap ++ '*' :: '*' :: replaceBadGo fuel rest)
    | none => '*' :: replaceBadGo fuel ('*' :: t2)
  | fuel + 1, c :: t => c :: replaceBadGo fuel t

/-- The global replace `.replace(/\*\*\s+([^*]+?)\s+\*\*/g, '**$1**')`. -/
def replaceBad (l : List Char) : List Char :=
  replaceBadGo l.length l

/-- Source `fixBoldSpacing` (`html-to-markdown.js` lines 148–159): collect
the bold parts, test each for bad spacing, and only when some part is bad
run the global replace; otherwise return the input unchanged. -/
def fixBoldSpacing (markdown : String) : String :=
  let boldParts := findBoldParts markdown.data
  let hasBadSpacing := boldParts.any hasBadAnywhere
  if hasBadSpacing then ⟨replaceBad markdown.data⟩ else markdown

/-! ## Converter: custom rules (`html-to-markdown.js` lines 16–108) -/

/-- Replacement function of the custom `strong` rule (lines 18–25): trim the
rendered content, return the empty string for blank content, otherwise wrap
the trimmed content in the `**` strong delimiter. -/
def strongReplacement (content : String) : String :=
  let trimmedContent := trimS content
  if trimmedContent ≠ "" then "**" ++ trimmedContent ++ "**" else ""

/-- Modelled from the spec: the transduction engine renders a bold/emphasis
element (such as `b`) like a `strong` element, by applying the strong rule to
its rendered content. The dispatch that routes `b` elements to a bold rule
lives in the turndown dependency, which is not under src/. -/
def renderBoldElement (content : String) : String :=
  strongReplacement content

/-- Replacement function of the custom `listItem` rule (lines 55–66):
drop the leading run of line feeds, collapse the trailing run to a single
line feed, indent every remaining line feed by four spaces, prefix the
configured bullet marker (`-`) and a space, and append a line feed when the
node has a next sibling and the transformed content does not end in one. -/
def indentNL : List Char → List Char
  | [] => []
  | c :: t =>
    if c == '\n' then '\n' :: ' ' :: ' ' :: ' ' :: ' ' :: indentNL t
    else c :: indentNL t

/-- Source `listItem` replacement (lines 55–66). -/
def listItemReplacement (content : String) (hasNextSibling : Bool) : String :=
  let c := indentNL (collapseTrailingNL (stripLeadingNL content.data))
  "- " ++ (⟨c⟩ : String) ++
    (if hasNextSibling && !(c.getLast? == some '\n') then "\n" else "")

/-- Source `table` replacement (lines 70–75): wrap the rendered rows in a
blank line before and after. -/
def tableReplacement (content : String) : String :=
  "\n\n" ++ content ++ "\n\n"

/-- Header-row test of the `tableRow` rule (lines 79–81): the parent is a
`THEAD`, or the parent is a `TBODY` whose previous element sibling is not a
`THEAD` and the row is the first element child of its parent. -/
def isHeaderRow (parentName : String) (parentPrevSiblingName : Option String)
    (isFirstElementChild : Bool) : Bool :=
  parentName == "THEAD" ||
    (parentName == "TBODY" && !(parentPrevSiblingName == some "THEAD")
      && isFirstElementChild)

/-- JavaScript `Array.prototype.join(sep)`. -/
def joinWith (sep : String) : List String → String
  | [] => ""
  | [x] => x
  | x :: xs => x ++ sep ++ joinWith sep xs

/-- Separator line built by the `tableRow` rule (lines 84–88):
`'|' + Array(cellCount).fill(' --- ').join(' |') + ' |'`. -/
def tableSeparatorLine (cellCount : Nat) : String :=
  "|" ++ joinWith " |" (List.replicate cellCount " --- ") ++ " |"

/-- Source `tableRow` replacement (lines 77–94). -/
def tableRowReplacement (content : String) (parentName : String)
    (parentPrevSiblingName : Option String) (isFirstElementChild : Bool)
    (cellCount : Nat) : String :=
  let row := "|" ++ content
  let row :=
    if isHeaderRow parentName parentPrevSiblingName isFirstElementChild then
      row ++ "\n" ++ tableSeparatorLine cellCount
    else row
  row ++ "\n"

/-- JavaScript `.replace(/\n/g, ' ')`: every line feed becomes a space. -/
def nlToSpace (l : List Char) : List Char :=
  l.map (fun c => if c == '\n' then ' ' else c)

/-- JavaScript `.replace(/\|/g, '\\|')`: escape every pipe character. -/
def escapePipes : List Char → List Char
  | [] => []
  | c :: t =>
    if c == '|' then '\\' :: '|' :: escapePipes t
    else c :: escapePipes t

/-- Source `tableCell` replacement (lines 96–107): line feeds become spaces,
pipes are escaped as `\|`, the result is trimmed and rendered as
`' ' + content + ' |'`. -/
def tableCellReplacement (content : String) : String :=
  let cleanContent : String := ⟨jsTrim (escapePipes (nlToSpace content.data))⟩
  " " ++ cleanContent ++ " |"

/-! ## Converter: convert and the footer (`html-to-markdown.js` lines 110–174) -/

/-- Source `generateFooter` (lines 162–174): the fixed closing section. -/
def generateFooter : String :=
  "---\n\n## 🌟 お知らせ\n\nこの記事が役に立ったら、ぜひフォローやいいねをお願いします！\n\n" ++
  "**🐦 X**: [@nabe_AI_dev](https://x.com/nabe_AI_dev)\n" ++
  "AI開発の最新情報や技術Tips、開発の進捗などを定期的にツイートしています。\n\n" ++
  "**📝 ブログ**: [AI Developer Blog](https://ai-developer-blog.vercel.app/)\n" ++
  "AIツール開発に関する詳細な記事や実装事例を公開中です。"

/-- Newline cleanup of `convert` (lines 121–125): collapse runs of three or
more line feeds to two, then strip the leading and the trailing run. -/
def normalizeNewlines (s : String) : String :=
  ⟨stripTrailingNL (stripLeadingNL (collapse3 s.data))⟩

/-- Body of the `try` block of `convert` (lines 115–141), parameterized by
the rendering engine `render` (the turndown dependency), which may raise.
An engine failure on the document or on the excerpt propagates out and is
caught by `convert`. -/
def convertTry (render : String → Except Unit String) (html : String)
    (excerpt : Option String) : Except Unit String :=
  match render html with
  | Except.error e => Except.error e
  | Except.ok md0 =>
    let md := normalizeNewlines (fixBoldSpacing md0)
    match excerpt with
    | some e =>
      if trimS e ≠ "" then
        match render e with
        | Except.error e2 => Except.error e2
        | Except.ok em =>
          Except.ok ((if em ≠ "" then em ++ "\n\n" ++ md else md) ++
            "\n\n" ++ generateFooter)
      else Except.ok (md ++ "\n\n" ++ generateFooter)
    | none => Except.ok (md ++ "\n\n" ++ generateFooter)

/-- Source `convert` (lines 110–146) on string input: empty input returns the
empty string; otherwise the try block runs and an engine failure is recovered
by returning the original markup unchanged. -/
def convert (render : String → Except Unit String) (html : String)
    (excerpt : Option String) : String :=
  if html = "" then ""
  else
    match convertTry render html excerpt with
    | Except.ok md => md
    | Except.error _ => html

/-- A JavaScript argument to `convert`: either a string or a non-string value
(null, undefined, a number, an object, …). -/
inductive JsValue
  | str (s : String)
  | nonString

/-- Source `convert` including its input guard (lines 111–113): a non-string
argument returns the empty string. -/
def convertInput (render : String → Except Unit String) (v : JsValue)
    (excerpt : Option String) : String :=
  match v with
  | .str s => convert render s excerpt
  | .nonString => ""

/-! ## Tag normalizer (`html-to-markdown.js` lines 177–230) -/

/-- A Qiita tag object in the output of `processTags`. -/
structure QiitaTag where
  name : String
deriving DecidableEq, Repr

/-- A JavaScript value occurring in the `categories` argument: a string, an
object with optional `name`/`title` fields, or a nullish value. -/
inductive CategoryValue
  | str (s : String)
  | obj (nameField : Option String) (titleField : Option String)
  | nullish
deriving DecidableEq, Repr

/-- The `categories` argument itself: an array or a single value. -/
inductive CategoriesInput
  | list (cs : List CategoryValue)
  | single (c : CategoryValue)
deriving DecidableEq, Repr

/-- JavaScript truthiness of an optional string field: present and non-empty. -/
def truthyField : Option String → Option String
  | some s => if s = "" then none else some s
  | none => none

/-- Candidates contributed by one category value (lines 186–194 and 196–202):
a truthy string is pushed, otherwise a truthy `name` field, otherwise a
truthy `title` field, otherwise nothing. -/
def categoryCandidates : CategoryValue → List String
  | .str s => if s = "" then [] else [s]
  | .obj nameField titleField =>
    match truthyField nameField with
    | some nm => [nm]
    | none =>
      match truthyField titleField with
      | some ti => [ti]
      | none => []
  | .nullish => []

/-- Flattening of the `categories` argument (lines 185–202): an array is
flattened element by element in order, a single value contributes its own
candidates. -/
def flattenCategories : CategoriesInput → List String
  | .list cs => (cs.map categoryCandidates).flatten
  | .single c => categoryCandidates c

/-- JavaScript `String.prototype.split(',')` on character lists. -/
def splitComma : List Char → List (List Char)
  | [] => [[]]
  | c :: t =>
    if c == ',' then [] :: splitComma t
    else
      match splitComma t with
      | [] => [[c]]
      | s :: ss => (c :: s) :: ss

/-- Splitting of the `tags` argument (lines 205–208): a falsy (empty) string
contributes nothing, otherwise split on commas, trim each segment and keep
the non-empty ones. -/
def splitTags (tags : String) : List String :=
  if tags = "" then []
  else (((splitComma tags.data).map fun l => (⟨jsTrim l⟩ : String)).filter
    (fun t => t.length > 0))

/-- Worker for JavaScript `[...new Set(l)]`: keep the first occurrence of
each element, remembering the values already emitted. -/
def jsSetDedupGo (seen : List String) : List String → List String
  | [] => []
  | x :: xs =>
    if x ∈ seen then jsSetDedupGo seen xs
    else x :: jsSetDedupGo (x :: seen) xs

/-- JavaScript `[...new Set(l)]`: deduplicate keeping the first occurrence. -/
def jsSetDedup (l : List String) : List String :=
  jsSetDedupGo [] l

/-- Filter of line 213–217: keep a tag when its trimmed form is non-empty
and at most 20 characters long. -/
def tagKeep (t : String) : Bool :=
  decide (0 < (trimS t).length) && decide ((trimS t).length ≤ 20)

/-- Source `processTags` (lines 177–230): flatten categories, split the tag
string, deduplicate, filter by the trimmed length, truncate to `maxTags`,
substitute the default `AI` tag when empty, and emit each survivor trimmed
as a `{name}` object. -/
def processTags (categories : CategoriesInput) (tags : String) (maxTags : Nat) :
    List QiitaTag :=
  let allTags := flattenCategories categories ++ splitTags tags
  let uniqueTags := ((jsSetDedup allTags).filter tagKeep).take maxTags
  let uniqueTags := if uniqueTags.isEmpty then ["AI"] else uniqueTags
  uniqueTags.map (fun t => ⟨trimS t⟩)

/-! ## Sync decision engine (`src/unnamed/part_000`) -/

/-- A content item as used by the sync script: identity, title and the three
source timestamps, each possibly absent. Timestamps are modelled as natural
numbers ordered like the `Date` values the script compares. -/
structure Article where
  id : String
  title : String
  updatedAt : Option Nat
  revisedAt : Option Nat
  publishedAt : Option Nat
deriving DecidableEq, Repr

/-- A persisted sync record for one article
(`history.articles[article.id]`). -/
structure SyncRecord where
  qiitaId : String
  title : String
  lastSyncedAt : Nat
  microCMSUpdatedAt : Option Nat
deriving DecidableEq, Repr

/-- The mapping of the state store from article id to sync record. -/
def ArticleMap : Type := String → Option SyncRecord

/-- The persisted sync history (`sync-history.json`). -/
structure SyncHistory where
  lastSyncTime : Option Nat
  articles : ArticleMap

/-- The decision of `shouldSyncArticle`: create, update carrying the stored
Qiita id, or skip. -/
inductive SyncDecision
  | create
  | update (qiitaId : String)
  | skip
deriving DecidableEq, Repr

/-- The effective timestamp
`article.updatedAt || article.revisedAt || article.publishedAt`
(line 114): the first present among update, revision and publish time. -/
def effectiveTimestamp (a : Article) : Option Nat :=
  match a.updatedAt with
  | some t => some t
  | none =>
    match a.revisedAt with
    | some t => some t
    | none => a.publishedAt

/-- Source `shouldSyncArticle` (lines 107–124): no record yields `create`;
with a record, an effective timestamp strictly later than the stored
`microCMSUpdatedAt` (both present) yields `update` with the stored Qiita id;
every other case yields `skip`. -/
def shouldSyncArticle (a : Article) (m : ArticleMap) : SyncDecision :=
  match m a.id with
  | none => .create
  | some r =>
    match effectiveTimestamp a, r.microCMSUpdatedAt with
    | some t, some s => if s < t then .update r.qiitaId else .skip
    | _, _ => .skip

/-- Pointwise update of the article map, modelling
`history.articles[article.id] = {...}`. -/
def setRecord (m : ArticleMap) (k : String) (r : SyncRecord) : ArticleMap :=
  fun k' => if k' = k then some r else m k'

/-- The publisher collaborator: given the article and the decision it either
returns the remote Qiita id of the created/updated item or fails. -/
def Publish : Type := Article → SyncDecision → Except Unit String

/-- In-memory state of the batch loop of `syncArticles`. -/
structure LoopState where
  articles : ArticleMap
  syncCount : Nat
  errorCount : Nat

/-- One iteration of the loop of `syncArticles` (lines 247–283): decide; on
skip continue; otherwise publish, and on success write the sync record (with
`microCMSUpdatedAt` set to the effective timestamp) and count the sync, on
failure count the error and continue. -/
def processArticle (publish : Publish) (now : Nat) (s : LoopState)
    (a : Article) : LoopState :=
  match shouldSyncArticle a s.articles with
  | .skip => s
  | d =>
    match publish a d with
    | .error _ => { s with errorCount := s.errorCount + 1 }
    | .ok qid =>
      { articles := setRecord s.articles a.id
          ⟨qid, a.title, now, effectiveTimestamp a⟩
        syncCount := s.syncCount + 1
        errorCount := s.errorCount }

/-- Upper bound on articles processed per run (line 244). -/
def maxArticles : Nat := 50

/-- Outcome of one batch run: the persisted history, the two counters and
the process exit code. -/
structure SyncOutcome where
  persistedHistory : SyncHistory
  syncCount : Nat
  errorCount : Nat
  exitCode : Nat

/-- Source `syncArticles` (lines 236–288): fold the loop over the first
`maxArticles` articles, then persist the history with a fresh
`lastSyncTime`; the run exits non-zero exactly when some item errored. -/
def syncArticles (publish : Publish) (now : Nat) (articles : List Article)
    (initial : SyncHistory) : SyncOutcome :=
  let final := (articles.take maxArticles).foldl (processArticle publish now)
    ⟨initial.articles, 0, 0⟩
  { persistedHistory := { lastSyncTime := some now, articles := final.articles }
    syncCount := final.syncCount
    errorCount := final.errorCount
    exitCode := if final.errorCount > 0 then 1 else 0 }

/-! ## Helper lemmas -/

theorem dropWhile_length_le {α : Type} (p : α → Bool) (l : List α) :
    (l.dropWhile p).length ≤ l.length := by
  induction l with
  | nil => simp
  | cons c t ih =>
    rw [List.dropWhile_cons]
    split
    · exact le_trans ih (by simp)
    · simp

theorem head_dropWhile_false {α : Type} (p : α → Bool) (l : List α) (c : α)
    (h : (l.dropWhile p).head? = some c) : p c = false := by
  induction l with
  | nil => simp at h
  | cons x t ih =>
    rw [List.dropWhile_cons] at h
    split at h
    · exact ih h
    · next hx =>
      simp at h
      subst h
      simpa using hx

theorem getLast?_append_right {α : Type} (s y : List α) (hy : y ≠ []) :
    (s ++ y).getLast? = y.getLast? := by
  rw [List.getLast?_append]
  obtain ⟨a, ha⟩ := Option.isSome_iff_exists.mp (List.getLast?_isSome.mpr hy)
  rw [ha]
  rfl

theorem head?_of_dropWhile_rev {α : Type} (p : α → Bool) (l : List α) (c : α)
    (h : ((l.reverse.dropWhile p).reverse).head? = some c) :
    l.head? = some c := by
  rcases hd : l.reverse.dropWhile p with _ | ⟨x, t⟩
  · rw [hd] at h
    simp at h
  · rw [hd] at h
    rw [List.head?_reverse] at h
    have hsuf := List.dropWhile_suffix p (l := l.reverse)
    obtain ⟨s, hs⟩ := hsuf
    rw [hd] at hs
    have : l.reverse.getLast? = (x :: t).getLast? := by
      rw [← hs]
      exact getLast?_append_right s (x :: t) (by simp)
    rw [List.getLast?_reverse] at this
    rw [this]
    exact h

theorem getLast?_of_dropWhile_rev {α : Type} (p : α → Bool) (l : List α) (c : α)
    (h : ((l.reverse.dropWhile p).reverse).getLast? = some c) : p c = false := by
  rw [List.getLast?_reverse] at h
  exact head_dropWhile_false p l.reverse c h

theorem dropWhile_eq_self_of_head {α : Type} (p : α → Bool) (l : List α)
    (h : ∀ c, l.head? = some c → p c = false) : l.dropWhile p = l := by
  cases l with
  | nil => rfl
  | cons x t =>
    rw [List.dropWhile_cons, h x rfl]
    simp

/-! ## Claim C1: the sync decision -/

/-- C1: for every content item and state store, `shouldSyncArticle` returns
`create` when the store has no record for the item's id; `update` carrying
the record's stored Qiita id when a record exists, the item's effective
timestamp (first present among `updatedAt`, `revisedAt`, `publishedAt`) is
present, the stored `sourceUpdatedAt` is present, and the effective
timestamp is strictly later; and `skip` in every other case. The function
is pure: it computes only a decision, so the store is not mutated. -/
theorem C1_shouldSyncArticle_decision (a : Article) (m : ArticleMap) :
    (m a.id = none → shouldSyncArticle a m = .create) ∧
    (∀ r t s, m a.id = some r → effectiveTimestamp a = some t →
      r.microCMSUpdatedAt = some s → s < t →
      shouldSyncArticle a m = .update r.qiitaId) ∧
    (∀ r, m a.id = some r →
      (¬ ∃ t s, effectiveTimestamp a = some t ∧ r.microCMSUpdatedAt = some s ∧ s < t) →
      shouldSyncArticle a m = .skip) ∧
    (∀ t, a.updatedAt = some t → effectiveTimestamp a = some t) ∧
    (a.updatedAt = none → ∀ t, a.revisedAt = some t → effectiveTimestamp a = some t) ∧
    (a.updatedAt = none → a.revisedAt = none →
      effectiveTimestamp a = a.publishedAt) := by
  refine ⟨?_, ?_, ?_, ?_, ?_, ?_⟩
  · intro h
    simp [shouldSyncArticle, h]
  · intro r t s hr ht hs hlt
    simp [shouldSyncArticle, hr, ht, hs, hlt]
  · intro r hr hne
    simp only [shouldSyncArticle, hr]
    rcases het : effectiveTimestamp a with _ | t <;>
      rcases hmu : r.microCMSUpdatedAt with _ | s <;> simp
    exact Nat.le_of_not_lt (fun hlt => hne ⟨t, s, het, hmu, hlt⟩)
  · intro t h
    simp [effectiveTimestamp, h]
  · intro h t h2
    simp [effectiveTimestamp, h, h2]
  · intro h h2
    simp [effectiveTimestamp, h, h2]

/-- Witness for C1 at a concrete item and store: a stored record with an
older `sourceUpdatedAt` yields `update` with the stored Qiita id. -/
theorem C1_shouldSyncArticle_decision_witness :
    shouldSyncArticle ⟨"a1", "T", some 5, none, some 1⟩
        (fun k => if k = "a1" then some ⟨"q1", "T", 0, some 3⟩ else none) =
      .update "q1" :=
  (C1_shouldSyncArticle_decision ⟨"a1", "T", some 5, none, some 1⟩
      (fun k => if k = "a1" then some ⟨"q1", "T", 0, some 3⟩ else none)).2.1
    ⟨"q1", "T", 0, some 3⟩ 5 3 (by decide) (by decide) (by decide) (by decide)

/-! ## Claim C8: conversion failure recovery -/

/-- C8: `convert` never throws: when the rendering engine raises internally
(on the document, or on a non-blank excerpt), the failure is recovered
locally by returning the original raw markup string unchanged. -/
theorem C8_convert_recovers (render : String → Except Unit String)
    (html : String) (excerpt : Option String) :
    (render html = .error () → convert render html excerpt = html) ∧
    (∀ e, excerpt = some e → trimS e ≠ "" → render e = .error () →
      convert render html excerpt = html) := by
  constructor
  · intro h
    by_cases hh : html = ""
    · subst hh
      simp [convert]
    · simp [convert, hh, convertTry, h, Except.bind]
  · intro e he hte hre
    by_cases hh : html = ""
    · subst hh
      simp [convert]
    · cases hr : render html with
      | error u =>
        cases u
        simp [convert, hh, convertTry, hr, Except.bind]
      | ok md =>
        subst he
        simp [convert, hh, convertTry, hr, hte, hre, Except.bind]

/-- Witness for C8: an engine that always raises leaves the markup alone. -/
theorem C8_convert_recovers_witness :
    convert (fun _ => Except.error ()) "<p>x</p>" none = "<p>x</p>" :=
  (C8_convert_recovers (fun _ => Except.error ()) "<p>x</p>" none).1 rfl

/-! ## Claim C10: the input guard of convert -/

theorem convert_ok_shape (render : String → Except Unit String) (html : String)
    (excerpt : Option String) (md : String) (hh : ¬ html = "")
    (hr : render html = .ok md) :
    (excerpt = none →
      convert render html excerpt =
        normalizeNewlines (fixBoldSpacing md) ++ "\n\n" ++ generateFooter) ∧
    (∀ e, excerpt = some e → trimS e = "" →
      convert render html excerpt =
        normalizeNewlines (fixBoldSpacing md) ++ "\n\n" ++ generateFooter) ∧
    (∀ e em, excerpt = some e → ¬ trimS e = "" → render e = .ok em → ¬ em = "" →
      convert render html excerpt =
        (em ++ "\n\n" ++ normalizeNewlines (fixBoldSpacing md)) ++ "\n\n" ++
          generateFooter) ∧
    (∀ e, excerpt = some e → ¬ trimS e = "" → render e = .ok "" →
      convert render html excerpt =
        normalizeNewlines (fixBoldSpacing md) ++ "\n\n" ++ generateFooter) := by
  refine ⟨?_, ?_, ?_, ?_⟩
  · intro he
    subst he
    simp [convert, hh, convertTry, hr]
  · intro e he hte
    subst he
    simp [convert, hh, convertTry, hr, hte]
  · intro e em he hte hre hem
    subst he
    simp [convert, hh, convertTry, hr, hte, hre, hem]
  · intro e he hte hre
    subst he
    simp [convert, hh, convertTry, hr, hte, hre]

set_option maxRecDepth 10000 in
/-- C10: a value that is not a non-empty string (a non-string value, or the
empty string) makes `convert` return the empty string, to which neither the
excerpt nor the footer section has been appended — unlike every successful
conversion of a non-empty string, which ends with the footer. -/
theorem C10_convert_guard (render : String → Except Unit String)
    (excerpt : Option String) :
    convertInput render .nonString excerpt = "" ∧
    convert render "" excerpt = "" ∧
    (∀ s md, ¬ s = "" → render s = .ok md →
      (∀ e, excerpt = some e → ¬ trimS e = "" → ∃ em, render e = .ok em) →
      ∃ core, convert render s excerpt = core ++ generateFooter) ∧
    (¬ ∃ core : String, ("" : String) = core ++ generateFooter) := by
  refine ⟨rfl, by simp [convert], ?_, ?_⟩
  · intro s md hs hr hex
    rcases excerpt with _ | e
    · exact ⟨_, (convert_ok_shape render s none md hs hr).1 rfl⟩
    · by_cases hte : trimS e = ""
      · exact ⟨_, (convert_ok_shape render s (some e) md hs hr).2.1 e rfl hte⟩
      · obtain ⟨em, hem⟩ := hex e rfl hte
        by_cases hem0 : em = ""
        · subst hem0
          exact ⟨_, (convert_ok_shape render s (some e) md hs hr).2.2.2 e rfl hte hem⟩
        · exact ⟨_, (convert_ok_shape render s (some e) md hs hr).2.2.1 e em rfl hte hem hem0⟩
  · rintro ⟨core, hcore⟩
    have hlen := congrArg String.length hcore
    rw [String.length_append] at hlen
    have hf : 0 < generateFooter.length := by decide
    have h0 : ("" : String).length = 0 := rfl
    rw [h0] at hlen
    omega

/-- Witness for C10: a successful conversion of the non-empty string `"x"`
ends with the footer. -/
theorem C10_convert_guard_witness :
    ∃ core, convert (fun t => Except.ok t) "x" none = core ++ generateFooter :=
  (C10_convert_guard (fun t => Except.ok t) none).2.2.1 "x" "x" (by decide) rfl
    (fun _ he => nomatch he)

/-! ## Claim C4: bold trimming -/

theorem jsTrim_head_not_ws (l : List Char) (c : Char)
    (h : (jsTrim l).head? = some c) : isJsWs c = false := by
  unfold jsTrim at h
  have := head?_of_dropWhile_rev isJsWs (l.dropWhile isJsWs) c h
  exact head_dropWhile_false isJsWs l c this

theorem jsTrim_getLast_not_ws (l : List Char) (c : Char)
    (h : (jsTrim l).getLast? = some c) : isJsWs c = false := by
  unfold jsTrim at h
  rw [List.getLast?_reverse] at h
  exact head_dropWhile_false isJsWs _ c h

/-- C4: the strong rule applies its delimiter only to trimmed content: for
every rendered content the output is either empty (blank content) or the
trimmed content wrapped in `**`, and the wrapped text neither starts nor
ends in whitespace, so the rule never emits padded delimiters; in particular
a bold element with content `" text "` renders as `**text**`, and
`fixBoldSpacing` rewrites a padded `** text **` to `**text**`. -/
theorem C4_strong_trimming :
    (∀ content : String,
      strongReplacement content = "" ∨
      (strongReplacement content = "**" ++ trimS content ++ "**" ∧
        ((trimS content).data.head?.all fun c => !isJsWs c) = true ∧
        ((trimS content).data.getLast?.all fun c => !isJsWs c) = true)) ∧
    renderBoldElement " text " = "**text**" ∧
    strongReplacement " text " = "**text**" ∧
    fixBoldSpacing "** text **" = "**text**" := by
  refine ⟨?_, by decide, by decide, by decide⟩
  intro content
  by_cases h : trimS content = ""
  · left
    simp [strongReplacement, h]
  · right
    refine ⟨by simp [strongReplacement, h], ?_, ?_⟩
    · cases hh : (trimS content).data.head? with
      | none => rfl
      | some c =>
        have := jsTrim_head_not_ws content.data c hh
        simp [Option.all, this]
    · cases hh : (trimS content).data.getLast? with
      | none => rfl
      | some c =>
        have := jsTrim_getLast_not_ws content.data c hh
        simp [Option.all, this]

/-! ## Claim C5: table rows, separator lines and cells -/

/-- Number of dash characters of a string. -/
def dashCount (s : String) : Nat := s.data.count '-'

/-- Number of pipe characters of a string. -/
def pipeCount (s : String) : Nat := s.data.count '|'

theorem joinWith_sep_counts (n : Nat) :
    dashCount (joinWith " |" (List.replicate (n + 1) " --- ")) = 3 * (n + 1) ∧
    pipeCount (joinWith " |" (List.replicate (n + 1) " --- ")) = n := by
  induction n with
  | zero => exact ⟨by decide, by decide⟩
  | succ m ih =>
    obtain ⟨ih1, ih2⟩ := ih
    have hrep : List.replicate (m + 1 + 1) " --- " =
        " --- " :: " --- " :: List.replicate m " --- " := by
      rw [List.replicate_succ, List.replicate_succ]
    have hjoin : joinWith " |" (" --- " :: " --- " :: List.replicate m " --- ") =
        " --- " ++ " |" ++ joinWith " |" (" --- " :: List.replicate m " --- ") := rfl
    constructor
    · unfold dashCount at ih1 ⊢
      rw [hrep, hjoin, ← List.replicate_succ, String.data_append, String.data_append,
        List.count_append, List.count_append, ih1]
      have c1 : (" --- " : String).data.count '-' = 3 := by decide
      have c2 : (" |" : String).data.count '-' = 0 := by decide
      rw [c1, c2]
      omega
    · unfold pipeCount at ih2 ⊢
      rw [hrep, hjoin, ← List.replicate_succ, String.data_append, String.data_append,
        List.count_append, List.count_append, ih2]
      have c1 : (" --- " : String).data.count '|' = 0 := by decide
      have c2 : (" |" : String).data.count '|' = 1 := by decide
      rw [c1, c2]
      omega

/-- C5: a table row that is the first row of a header section — its parent
is a `THEAD` header group, or, absent an explicit header group, it is the
very first row of the `TBODY` — is followed immediately by a separator line
with exactly one dashed segment per cell (three dashes per cell, and one
more pipe than cells); in particular a 2-row, 2-column table renders as a
header row, the separator immediately after, and a data row, with each cell
trimmed, pipe-escaped and rendered as `' <content> |'`. -/
theorem C5_tableRow_separator :
    (∀ (content parentName : String) (pPrev : Option String) (first : Bool)
        (n : Nat),
      (parentName = "THEAD" ∨
        (parentName = "TBODY" ∧ pPrev ≠ some "THEAD" ∧ first = true)) →
      tableRowReplacement content parentName pPrev first n =
        "|" ++ content ++ "\n" ++ tableSeparatorLine n ++ "\n") ∧
    (∀ n, dashCount (tableSeparatorLine n) = 3 * n) ∧
    (∀ n, 0 < n → pipeCount (tableSeparatorLine n) = n + 1) ∧
    tableReplacement
        (tableRowReplacement (tableCellReplacement "Name" ++ tableCellReplacement "Age")
            "THEAD" none true 2 ++
          tableRowReplacement
            (tableCellReplacement " Alice\nB " ++ tableCellReplacement "x|y")
            "TBODY" (some "THEAD") false 2) =
      "\n\n| Name | Age |\n| ---  | ---  |\n| Alice B | x\\|y |\n\n\n" ∧
    tableCellReplacement " Alice\nB " = " Alice B |" ∧
    tableCellReplacement "x|y" = " x\\|y |" := by
  refine ⟨?_, ?_, ?_, by decide, by decide, by decide⟩
  · intro content parentName pPrev first n hcond
    rcases hcond with h | ⟨hp, hprev, hfirst⟩
    · subst h
      simp [tableRowReplacement, isHeaderRow]
    · subst hp
      subst hfirst
      have hb : (pPrev == some "THEAD") = false := beq_eq_false_iff_ne.mpr hprev
      simp [tableRowReplacement, isHeaderRow, hb]
  · intro n
    cases n with
    | zero => decide
    | succ m =>
      unfold tableSeparatorLine dashCount
      rw [String.data_append, String.data_append, List.count_append, List.count_append]
      have h1 := (joinWith_sep_counts m).1
      unfold dashCount at h1
      rw [h1]
      have c1 : ("|" : String).data.count '-' = 0 := by decide
      have c2 : (" |" : String).data.count '-' = 0 := by decide
      rw [c1, c2]
      omega
  · intro n hn
    cases n with
    | zero => omega
    | succ m =>
      unfold tableSeparatorLine pipeCount
      rw [String.data_append, String.data_append, List.count_append, List.count_append]
      have h1 := (joinWith_sep_counts m).2
      unfold pipeCount at h1
      rw [h1]
      have c1 : ("|" : String).data.count '|' = 1 := by decide
      have c2 : (" |" : String).data.count '|' = 1 := by decide
      rw [c1, c2]
      omega

/-- Witness for C5 at a concrete header row in a `THEAD` with one cell. -/
theorem C5_tableRow_separator_witness :
    tableRowReplacement "C" "THEAD" none true 1 =
      "|" ++ "C" ++ "\n" ++ tableSeparatorLine 1 ++ "\n" :=
  C5_tableRow_separator.1 "C" "THEAD" none true 1 (Or.inl rfl)

/-! ## Claim C2: tag normalization -/

theorem jsSetDedupGo_congr (m : List String) :
    ∀ seen1 seen2, (∀ y ∈ m, (y ∈ seen1 ↔ y ∈ seen2)) →
      jsSetDedupGo seen1 m = jsSetDedupGo seen2 m := by
  induction m with
  | nil => intro _ _ _; rfl
  | cons x xs ih =>
    intro s1 s2 h
    have hx := h x (List.mem_cons_self x xs)
    unfold jsSetDedupGo
    by_cases h1 : x ∈ s1
    · rw [if_pos h1, if_pos (hx.mp h1)]
      exact ih s1 s2 (fun y hy => h y (List.mem_cons_of_mem _ hy))
    · rw [if_neg h1, if_neg (fun hh => h1 (hx.mpr hh))]
      congr 1
      refine ih (x :: s1) (x :: s2) (fun y hy => ?_)
      simp only [List.mem_cons]
      rw [h y (List.mem_cons_of_mem _ hy)]

theorem jsSetDedupGo_cons (seen : List String) (x : String) (xs : List String) :
    jsSetDedupGo seen (x :: xs) =
      if x ∈ seen then jsSetDedupGo seen xs
      else x :: jsSetDedupGo (x :: seen) xs := rfl

theorem filter_jsSetDedupGo (p : String → Bool) (m : List String) :
    ∀ seen, (jsSetDedupGo seen m).filter p = jsSetDedupGo seen (m.filter p) := by
  induction m with
  | nil => intro _; rfl
  | cons x xs ih =>
    intro seen
    rw [List.filter_cons, jsSetDedupGo_cons]
    by_cases hseen : x ∈ seen
    · rw [if_pos hseen]
      by_cases hp : p x
      · rw [if_pos hp, jsSetDedupGo_cons, if_pos hseen]
        exact ih seen
      · rw [if_neg hp]
        exact ih seen
    · rw [if_neg hseen]
      by_cases hp : p x
      · rw [if_pos hp, jsSetDedupGo_cons, if_neg hseen, List.filter_cons, if_pos hp]
        congr 1
        exact ih (x :: seen)
      · rw [if_neg hp, List.filter_cons, if_neg hp]
        rw [ih (x :: seen)]
        refine jsSetDedupGo_congr _ _ _ (fun y hy => ?_)
        have hyp : p y = true := List.of_mem_filter hy
        have hyx : ¬ y = x := fun he => by
          rw [he] at hyp
          exact hp hyp
        simp [List.mem_cons, hyx]

theorem filter_jsSetDedup (p : String → Bool) (l : List String) :
    (jsSetDedup l).filter p = jsSetDedup (l.filter p) :=
  filter_jsSetDedupGo p l []

theorem tagKeep_length_pos (t : String) (h : tagKeep t = true) : 0 < t.length := by
  unfold tagKeep at h
  simp only [Bool.and_eq_true, decide_eq_true_eq] at h
  have htr : (trimS t).length ≤ t.length := by
    show (jsTrim t.data).length ≤ t.data.length
    unfold jsTrim
    rw [List.length_reverse]
    calc ((t.data.dropWhile isJsWs).reverse.dropWhile isJsWs).length
        ≤ (t.data.dropWhile isJsWs).reverse.length := dropWhile_length_le _ _
      _ = (t.data.dropWhile isJsWs).length := List.length_reverse _
      _ ≤ t.data.length := dropWhile_length_le _ _
  have := h.1
  omega

theorem filter_tagKeep_splitTags (tags : String) :
    (splitTags tags).filter tagKeep =
      ((splitComma tags.data).map fun l => (⟨jsTrim l⟩ : String)).filter tagKeep := by
  unfold splitTags
  by_cases h : tags = ""
  · subst h
    decide
  · rw [if_neg h, List.filter_filter]
    refine List.filter_congr (fun t _ => ?_)
    by_cases hk : tagKeep t
    · have := tagKeep_length_pos t hk
      rw [hk]
      simp
      omega
    · simp only [Bool.not_eq_true] at hk
      rw [hk]
      simp

/-- The tag normalization algorithm as the amended claim describes it:
flatten the categories, split the raw tags on commas trimming each segment,
concatenate preserving first-seen order, deduplicate by exact string
equality, discard candidates whose trimmed form is empty or longer than 20
characters, truncate to the first `maxTags` survivors, substitute the
default `AI` tag when empty, and emit each survivor trimmed. -/
def processTagsAmended (categories : CategoriesInput) (tags : String)
    (maxTags : Nat) : List QiitaTag :=
  let candidates := flattenCategories categories ++
    ((splitComma tags.data).map fun l => (⟨jsTrim l⟩ : String))
  let survivors := ((jsSetDedup candidates).filter tagKeep).take maxTags
  let result := if survivors.isEmpty then ["AI"] else survivors
  result.map (fun t => ⟨trimS t⟩)

/-- The tag normalization algorithm as the claim literally states it:
candidates are discarded only when they are (exactly) empty or longer than
20 characters, and survivors are emitted verbatim, untrimmed. -/
def processTagsClaimStated (categories : CategoriesInput) (tags : String)
    (maxTags : Nat) : List QiitaTag :=
  let candidates := flattenCategories categories ++
    ((splitComma tags.data).map fun l => (⟨jsTrim l⟩ : String))
  let survivors := ((jsSetDedup candidates).filter
    (fun t => decide (¬ t = "") && decide (t.length ≤ 20))).take maxTags
  let result := if survivors.isEmpty then ["AI"] else survivors
  result.map (fun t => ⟨t⟩)

/-- Counterexample to C2 as stated: a whitespace-only category candidate is
not empty and not longer than 20 characters, so the claim keeps it verbatim;
the code discards it (its trimmed form is empty) and falls back to the
default tag. A padded category `" A "` survives under both readings but the
code emits it trimmed while the claim emits it verbatim. -/
theorem C2_processTags_counterexample :
    processTags (.list [.str "  "]) "" 5 = [⟨"AI"⟩] ∧
    processTagsClaimStated (.list [.str "  "]) "" 5 = [⟨"  "⟩] ∧
    processTags (.list [.str " A "]) "" 5 = [⟨"A"⟩] ∧
    processTagsClaimStated (.list [.str " A "]) "" 5 = [⟨" A "⟩] := by
  refine ⟨by decide, by decide, by decide, by decide⟩

/-- C2 (amended): `processTags` flattens categories, splits the raw tags on
commas trimming each segment, concatenates both sources preserving
first-seen order, deduplicates by exact string equality, discards candidates
whose trimmed form is empty or longer than 20 characters, truncates to the
first `maxTags` survivors, substitutes the single default tag when empty,
and emits each surviving candidate trimmed; in particular
`categories=["A","A","B"], rawTags="c, d", maxTags=5` yields
`[{name:"A"},{name:"B"},{name:"c"},{name:"d"}]` and empty input yields the
single default tag. -/
theorem C2_processTags_amended :
    (∀ (c : CategoriesInput) (t : String) (m : Nat),
      processTags c t m = processTagsAmended c t m) ∧
    processTags (.list [.str "A", .str "A", .str "B"]) "c, d" 5 =
      [⟨"A"⟩, ⟨"B"⟩, ⟨"c"⟩, ⟨"d"⟩] ∧
    processTags (.list []) "" 5 = [⟨"AI"⟩] := by
  refine ⟨?_, by decide, by decide⟩
  intro c t m
  simp only [processTags, processTagsAmended]
  have h : (jsSetDedup (flattenCategories c ++ splitTags t)).filter tagKeep =
      (jsSetDedup (flattenCategories c ++
        ((splitComma t.data).map fun l => (⟨jsTrim l⟩ : String)))).filter tagKeep := by
    rw [filter_jsSetDedup, filter_jsSetDedup, List.filter_append, List.filter_append,
      filter_tagKeep_splitTags]
  rw [h]

/-! ## Claim C6: the list-item rule -/

theorem dropWhile_replicate_append {α : Type} (p : α → Bool) (a : α)
    (hp : p a = true) (k : Nat) (m : List α) :
    (List.replicate k a ++ m).dropWhile p = m.dropWhile p := by
  induction k with
  | zero => rfl
  | succ j ih =>
    rw [List.replicate_succ, List.cons_append, List.dropWhile_cons, hp]
    simpa using ih

theorem head?_append_left {α : Type} (x : α) (l m : List α) :
    ((x :: l) ++ m).head? = some x := rfl

theorem getLast?_replicate_succ (k : Nat) (a : Char) :
    (List.replicate (k + 1) a).getLast? = some a := by
  rw [← List.head?_reverse, List.reverse_replicate]
  rw [List.replicate_succ]
  rfl

theorem indentNL_cons (c : Char) (t : List Char) :
    indentNL (c :: t) =
      (if c == '\n' then ['\n', ' ', ' ', ' ', ' '] else [c]) ++ indentNL t := by
  by_cases hc : c == '\n' <;> simp only [indentNL, hc, if_true, if_false] <;> rfl

theorem indentNL_append (a b : List Char) :
    indentNL (a ++ b) = indentNL a ++ indentNL b := by
  induction a with
  | nil => rfl
  | cons c t ih =>
    rw [List.cons_append, indentNL_cons, indentNL_cons, ih, List.append_assoc]

theorem indentNL_eq_nil_iff (l : List Char) : indentNL l = [] ↔ l = [] := by
  cases l with
  | nil => simp [indentNL]
  | cons c t =>
    rw [indentNL_cons]
    constructor
    · intro h
      rcases List.append_eq_nil.mp h with ⟨h1, -⟩
      split at h1 <;> simp at h1
    · intro h
      simp at h

theorem indentNL_getLast_ne (l : List Char) :
    ¬ (indentNL l).getLast? = some '\n' := by
  induction l with
  | nil => simp [indentNL]
  | cons c t ih =>
    rw [indentNL_cons]
    by_cases hne : indentNL t = []
    · have ht : t = [] := (indentNL_eq_nil_iff t).mp hne
      subst ht
      simp only [indentNL, List.append_nil]
      by_cases hc : c == '\n'
      · rw [if_pos hc]
        decide
      · rw [if_neg hc]
        intro h
        simp at h
        subst h
        simp at hc
    · rw [getLast?_append_right _ _ hne]
      exact ih

/-- C6 (amended): the list-item rule strips the leading run of line breaks,
collapses the trailing run to a single break, re-indents every remaining
break (including that trailing one) by the four-space indent unit, prefixes
the bullet marker `- `, and appends a trailing break exactly when the item
has a next sibling — the transformed content itself never ends in a break.
Content consisting only of line breaks renders as the bare marker. -/
theorem C6_listItem_amended :
    (∀ (core : List Char) (nLead nTrail : Nat) (sib : Bool),
      ¬ core = [] → ¬ core.head? = some '\n' → ¬ core.getLast? = some '\n' →
      listItemReplacement
          ⟨List.replicate nLead '\n' ++ core ++ List.replicate nTrail '\n'⟩ sib =
        "- " ++ (⟨indentNL core⟩ : String) ++
          (if 0 < nTrail then (⟨['\n', ' ', ' ', ' ', ' ']⟩ : String) else "") ++
          (if sib then "\n" else "")) ∧
    (∀ (n : Nat) (sib : Bool),
      listItemReplacement ⟨List.replicate n '\n'⟩ sib =
        "- " ++ (if sib then "\n" else "")) := by
  constructor
  · intro core nLead nTrail sib hne hhead hlast
    obtain ⟨c0, core', hc0⟩ : ∃ c0 core', core = c0 :: core' := by
      cases core with
      | nil => exact absurd rfl hne
      | cons c0 core' => exact ⟨c0, core', rfl⟩
    have hc0nl : (c0 == '\n') = false := by
      rw [hc0] at hhead
      simp only [List.head?_cons] at hhead
      have : ¬ c0 = '\n' := fun h => hhead (by rw [h])
      simpa using this
    have h1 : stripLeadingNL
        (List.replicate nLead '\n' ++ core ++ List.replicate nTrail '\n') =
        core ++ List.replicate nTrail '\n' := by
      unfold stripLeadingNL
      rw [List.append_assoc, dropWhile_replicate_append _ '\n' rfl]
      rw [hc0, List.cons_append, List.dropWhile_cons, hc0nl]
      simp
    have hcorerev : core.reverse.dropWhile (fun c => c == '\n') = core.reverse := by
      refine dropWhile_eq_self_of_head _ _ (fun c hc => ?_)
      rw [List.head?_reverse] at hc
      have : ¬ c = '\n' := fun h => hlast (by rw [← h]; exact hc)
      simpa using this
    have hstrip : stripTrailingNL (core ++ List.replicate nTrail '\n') = core := by
      unfold stripTrailingNL
      rw [List.reverse_append, List.reverse_replicate,
        dropWhile_replicate_append _ '\n' rfl, hcorerev, List.reverse_reverse]
    cases nTrail with
    | zero =>
      have h2 : collapseTrailingNL (core ++ List.replicate 0 '\n') = core := by
        unfold collapseTrailingNL
        simp only [List.replicate_zero, List.append_nil]
        have hb : (core.getLast? == some '\n') = false := by
          simpa using hlast
        rw [hb]
        simp
      have hlast2 : ((indentNL core).getLast? == some '\n') = false := by
        simpa using indentNL_getLast_ne core
      simp only [listItemReplacement]
      rw [h1, h2, hlast2]
      apply String.ext
      cases sib <;>
        simp [String.data_append, List.append_assoc]
    | succ k =>
      have hlast3 : (core ++ List.replicate (k + 1) '\n').getLast? = some '\n' := by
        rw [getLast?_append_right _ _ (by simp), getLast?_replicate_succ]
      have h2 : collapseTrailingNL (core ++ List.replicate (k + 1) '\n') =
          core ++ ['\n'] := by
        unfold collapseTrailingNL
        rw [hlast3]
        simp only [beq_self_eq_true, if_true]
        rw [hstrip]
      have htail : ((indentNL core ++ indentNL ['\n']).getLast? == some '\n') =
          false := by
        rw [getLast?_append_right _ _ (by simp [indentNL])]
        decide
      simp only [listItemReplacement]
      rw [h1, h2, indentNL_append, htail]
      apply String.ext
      cases sib <;>
        simp [String.data_append, List.append_assoc, indentNL]
  · intro n sib
    have h1 : stripLeadingNL (⟨List.replicate n '\n'⟩ : String).data = [] := by
      show (List.replicate n '\n').dropWhile (fun c => c == '\n') = []
      rw [show (List.replicate n '\n') = List.replicate n '\n' ++ ([] : List Char)
        by simp]
      rw [dropWhile_replicate_append _ '\n' rfl]
      rfl
    simp only [listItemReplacement]
    rw [h1]
    apply String.ext
    cases sib <;>
      simp [collapseTrailingNL, stripTrailingNL, indentNL, String.data_append]

/-- The list-item transformation as the claim literally states it: leading
and trailing blank lines are stripped, internal breaks are indented, and a
break is appended when a sibling follows and the content does not end in
one. -/
def listItemClaimStated (content : String) (sib : Bool) : String :=
  let core := ((content.data.dropWhile (fun c => c == '\n')).reverse.dropWhile
      (fun c => c == '\n')).reverse
  let body := indentNL core
  "- " ++ (⟨body⟩ : String) ++
    (if sib && !(body.getLast? == some '\n') then "\n" else "")

/-- Counterexample to C6 as stated: for content `"a\n"` with a following
sibling the code collapses the trailing break to one and then indents it,
yielding `"- a\n    \n"`, while the claim's stripping of trailing blank
lines would yield `"- a\n"`. -/
theorem C6_listItem_counterexample :
    listItemReplacement "a\n" true = "- a\n    \n" ∧
    listItemClaimStated "a\n" true = "- a\n" ∧
    ¬ listItemReplacement "a\n" true = listItemClaimStated "a\n" true := by
  refine ⟨by decide, by decide, by decide⟩

/-- Witness for C6 at the concrete content `"a\n"` with a sibling. -/
theorem C6_listItem_amended_witness :
    listItemReplacement ⟨List.replicate 0 '\n' ++ ['a'] ++ List.replicate 1 '\n'⟩
        true =
      "- " ++ (⟨indentNL ['a']⟩ : String) ++
        (if 0 < 1 then (⟨['\n', ' ', ' ', ' ', ' ']⟩ : String) else "") ++
        (if true then "\n" else "") :=
  C6_listItem_amended.1 ['a'] 0 1 true (by decide) (by decide) (by decide)

/-! ## Claims C7 and C9: post-processing of convert -/

/-- Does the character list contain three consecutive line feeds? -/
def hasTriple : List Char → Bool
  | c1 :: c2 :: c3 :: t =>
    (c1 == '\n' && c2 == '\n' && c3 == '\n') || hasTriple (c2 :: c3 :: t)
  | _ => false

theorem hasTriple_short (l : List Char) (h : l.length ≤ 2) : hasTriple l = false := by
  match l with
  | [] => rfl
  | [c] => rfl
  | [c1, c2] => rfl
  | c1 :: c2 :: c3 :: t =>
    rw [List.length_cons, List.length_cons, List.length_cons] at h
    omega

theorem hasTriple_tail (c : Char) (t : List Char)
    (h : hasTriple (c :: t) = false) : hasTriple t = false := by
  match t with
  | [] => rfl
  | [d] => rfl
  | d1 :: d2 :: t2 =>
    rw [hasTriple] at h
    exact (Bool.or_eq_false_iff.mp h).2

theorem hasTriple_cons_of_ne (c : Char) (hc : (c == '\n') = false)
    (t : List Char) : hasTriple (c :: t) = hasTriple t := by
  match t with
  | [] => rfl
  | [d] => rfl
  | d1 :: d2 :: t2 =>
    rw [hasTriple, hc]
    simp

theorem hasTriple_replicate_le2 (k : Nat) (hk : k ≤ 2) :
    hasTriple (List.replicate k '\n') = false := by
  apply hasTriple_short
  simpa using hk

theorem hasTriple_one_nl (c : Char) (hc : (c == '\n') = false) (rest : List Char) :
    hasTriple ('\n' :: c :: rest) = hasTriple (c :: rest) := by
  match rest with
  | [] => rfl
  | r :: rest2 =>
    rw [show hasTriple ('\n' :: c :: r :: rest2) =
      (('\n' == '\n' && c == '\n' && r == '\n') || hasTriple (c :: r :: rest2))
      from rfl]
    rw [hc]
    simp

theorem hasTriple_le2_append (k : Nat) (hk : k ≤ 2) (c : Char)
    (hc : (c == '\n') = false) (rest : List Char) :
    hasTriple (List.replicate k '\n' ++ c :: rest) = hasTriple (c :: rest) := by
  match k, hk with
  | 0, _ => rfl
  | 1, _ =>
    show hasTriple ('\n' :: c :: rest) = hasTriple (c :: rest)
    exact hasTriple_one_nl c hc rest
  | 2, _ =>
    show hasTriple ('\n' :: '\n' :: c :: rest) = hasTriple (c :: rest)
    rw [show hasTriple ('\n' :: '\n' :: c :: rest) =
      (('\n' == '\n' && '\n' == '\n' && c == '\n') || hasTriple ('\n' :: c :: rest))
      from rfl]
    rw [hc, hasTriple_one_nl c hc rest]
    simp

theorem hasTriple_collapse3Go (t : List Char) :
    ∀ n, hasTriple (collapse3Go n t) = false := by
  induction t with
  | nil =>
    intro n
    exact hasTriple_replicate_le2 _ (Nat.min_le_right n 2)
  | cons c t ih =>
    intro n
    rw [collapse3Go]
    by_cases hc : c == '\n'
    · rw [if_pos hc]
      exact ih (n + 1)
    · rw [if_neg hc]
      rw [hasTriple_le2_append _ (Nat.min_le_right n 2) c (by simpa using hc)]
      rw [hasTriple_cons_of_ne c (by simpa using hc)]
      exact ih 0

theorem hasTriple_of_suffix (s m : List Char)
    (h : hasTriple (s ++ m) = false) : hasTriple m = false := by
  induction s with
  | nil => exact h
  | cons c s ih =>
    rw [List.cons_append] at h
    exact ih (hasTriple_tail _ _ h)

theorem hasTriple_of_left (m : List Char) :
    ∀ s, hasTriple (m ++ s) = false → hasTriple m = false := by
  induction m with
  | nil => intro _ _; rfl
  | cons c m' ih =>
    intro s h
    rcases m' with _ | ⟨d1, m''⟩
    · rfl
    rcases m'' with _ | ⟨d2, mr⟩
    · rfl
    rw [List.cons_append, List.cons_append, List.cons_append] at h
    rw [hasTriple] at h
    rcases Bool.or_eq_false_iff.mp h with ⟨h1, h2⟩
    rw [← List.cons_append, ← List.cons_append] at h2
    rw [hasTriple, h1, ih s h2]
    rfl

theorem stripLeadingNL_no_triple (l : List Char)
    (h : hasTriple l = false) : hasTriple (stripLeadingNL l) = false := by
  obtain ⟨s, hs⟩ := List.dropWhile_suffix (l := l) (fun c => c == '\n')
  rw [← hs] at h
  exact hasTriple_of_suffix s _ h

theorem stripTrailingNL_decomp (l : List Char) :
    ∃ s, stripTrailingNL l ++ s = l := by
  obtain ⟨s, hs⟩ := List.dropWhile_suffix (l := l.reverse) (fun c => c == '\n')
  refine ⟨s.reverse, ?_⟩
  have := congrArg List.reverse hs
  rw [List.reverse_append, List.reverse_reverse] at this
  exact this

theorem stripTrailingNL_no_triple (l : List Char)
    (h : hasTriple l = false) : hasTriple (stripTrailingNL l) = false := by
  obtain ⟨s, hs⟩ := stripTrailingNL_decomp l
  rw [← hs] at h
  exact hasTriple_of_left _ s h

theorem normalizeNewlines_props (s : String) :
    hasTriple (normalizeNewlines s).data = false ∧
    ¬ (normalizeNewlines s).data.head? = some '\n' ∧
    ¬ (normalizeNewlines s).data.getLast? = some '\n' := by
  refine ⟨?_, ?_, ?_⟩
  · show hasTriple (stripTrailingNL (stripLeadingNL (collapse3 s.data))) = false
    exact stripTrailingNL_no_triple _
      (stripLeadingNL_no_triple _ (hasTriple_collapse3Go _ 0))
  · intro h
    have h2 := head?_of_dropWhile_rev (fun c => c == '\n')
      (stripLeadingNL (collapse3 s.data)) '\n' h
    have h3 := head_dropWhile_false (fun c => c == '\n') (collapse3 s.data) '\n' h2
    simp at h3
  · intro h
    have h2 := getLast?_of_dropWhile_rev (fun c => c == '\n')
      (stripLeadingNL (collapse3 s.data)) '\n' h
    simp at h2

theorem collapse3Go_id (l : List Char) :
    ∀ n, n ≤ 2 → hasTriple (List.replicate n '\n' ++ l) = false →
      collapse3Go n l = List.replicate n '\n' ++ l := by
  induction l with
  | nil =>
    intro n hn _
    show List.replicate (min n 2) '\n' = _
    rw [Nat.min_eq_left hn, List.append_nil]
  | cons c t ih =>
    intro n hn h
    rw [collapse3Go]
    by_cases hc : c == '\n'
    · rw [if_pos hc]
      have hceq : c = '\n' := by simpa using hc
      subst hceq
      have hrearr : List.replicate n '\n' ++ '\n' :: t =
          List.replicate (n + 1) '\n' ++ t := by
        rw [List.replicate_succ' n '\n', List.append_assoc]
        rfl
      rcases Nat.lt_or_ge n 2 with hlt | hge
      · rw [hrearr] at h ⊢
        exact ih (n + 1) (by omega) h
      · have hn2 : n = 2 := by omega
        subst hn2
        rw [show List.replicate 2 '\n' ++ '\n' :: t =
          '\n' :: '\n' :: '\n' :: t from rfl] at h
        rw [hasTriple] at h
        simp at h
    · rw [if_neg hc]
      rw [Nat.min_eq_left hn]
      have ht : hasTriple t = false := by
        have hsuf := hasTriple_of_suffix (List.replicate n '\n') _ h
        exact hasTriple_tail _ _ hsuf
      rw [ih 0 (by omega) (by simpa using ht)]
      rfl

theorem stripLeadingNL_id (l : List Char) (h : ¬ l.head? = some '\n') :
    stripLeadingNL l = l := by
  refine dropWhile_eq_self_of_head _ _ (fun c hc => ?_)
  have : ¬ c = '\n' := fun he => h (by rw [← he]; exact hc)
  simpa using this

theorem stripTrailingNL_id (l : List Char) (h : ¬ l.getLast? = some '\n') :
    stripTrailingNL l = l := by
  unfold stripTrailingNL
  rw [dropWhile_eq_self_of_head _ _ (fun c hc => ?_), List.reverse_reverse]
  rw [List.head?_reverse] at hc
  have : ¬ c = '\n' := fun he => h (by rw [← he]; exact hc)
  simpa using this

theorem normalizeNewlines_idem (s : String) :
    normalizeNewlines (normalizeNewlines s) = normalizeNewlines s := by
  obtain ⟨h1, h2, h3⟩ := normalizeNewlines_props s
  show (⟨stripTrailingNL (stripLeadingNL (collapse3
    (normalizeNewlines s).data))⟩ : String) = normalizeNewlines s
  rw [show collapse3 (normalizeNewlines s).data = (normalizeNewlines s).data from by
    have := collapse3Go_id (normalizeNewlines s).data 0 (by omega)
      (by simpa using h1)
    simpa using this]
  rw [stripLeadingNL_id _ h2, stripTrailingNL_id _ h3]

/-- C7 (amended): for every successful rendering of a non-empty document the
converted result is, in order: the transduced excerpt followed by a blank
line when the supplied excerpt markup is non-blank and its own transduction
is itself non-empty (the code's additional guard); then the rendered
document with bold spacing fixed, runs of three or more line breaks
collapsed to two and leading/trailing breaks stripped (the normalized core
contains no triple break and neither starts nor ends in one); then a blank
line and the fixed footer section — so every successful conversion ends
with the footer. -/
theorem C7_convert_postprocessing (render : String → Except Unit String)
    (html : String) (excerpt : Option String) (md : String)
    (hh : ¬ html = "") (hr : render html = .ok md) :
    (excerpt = none →
      convert render html excerpt =
        normalizeNewlines (fixBoldSpacing md) ++ "\n\n" ++ generateFooter) ∧
    (∀ e, excerpt = some e → trimS e = "" →
      convert render html excerpt =
        normalizeNewlines (fixBoldSpacing md) ++ "\n\n" ++ generateFooter) ∧
    (∀ e em, excerpt = some e → ¬ trimS e = "" → render e = .ok em → ¬ em = "" →
      convert render html excerpt =
        (em ++ "\n\n" ++ normalizeNewlines (fixBoldSpacing md)) ++ "\n\n" ++
          generateFooter) ∧
    (∀ e, excerpt = some e → ¬ trimS e = "" → render e = .ok "" →
      convert render html excerpt =
        normalizeNewlines (fixBoldSpacing md) ++ "\n\n" ++ generateFooter) ∧
    (∀ s : String, hasTriple (normalizeNewlines s).data = false ∧
      ¬ (normalizeNewlines s).data.head? = some '\n' ∧
      ¬ (normalizeNewlines s).data.getLast? = some '\n') := by
  obtain ⟨ha, hb, hc, hd⟩ := convert_ok_shape render html excerpt md hh hr
  exact ⟨ha, hb, hc, hd, normalizeNewlines_props⟩

/-- Witness for C7 at a concrete renderer, document and excerpt. -/
theorem C7_convert_postprocessing_witness :
    convert (fun s => Except.ok ("R" ++ s)) "<p>" (some "<q>") =
      ("R<q>" ++ "\n\n" ++ normalizeNewlines (fixBoldSpacing "R<p>")) ++ "\n\n" ++
        generateFooter :=
  (C7_convert_postprocessing (fun s => Except.ok ("R" ++ s)) "<p>" (some "<q>")
      "R<p>" (by decide) rfl).2.2.1 "<q>" "R<q>" rfl (by decide) rfl (by decide)

/-- The convert pipeline as the claim literally states it: the excerpt's own
transduction is prepended, followed by a blank line, whenever the supplied
excerpt markup is non-blank — with no regard to whether that transduction
is empty. -/
def convertClaimStated (render : String → Except Unit String) (html : String)
    (excerpt : Option String) : String :=
  if html = "" then ""
  else
    match render html with
    | Except.error _ => html
    | Except.ok md0 =>
      let md := normalizeNewlines (fixBoldSpacing md0)
      match excerpt with
      | some e =>
        if trimS e ≠ "" then
          match render e with
          | Except.error _ => html
          | Except.ok em => (em ++ "\n\n" ++ md) ++ "\n\n" ++ generateFooter
        else md ++ "\n\n" ++ generateFooter
      | none => md ++ "\n\n" ++ generateFooter

set_option maxRecDepth 40000 in
/-- Counterexample to C7 as stated: a non-blank excerpt markup whose own
transduction is empty (the source's image rule renders an `img` without a
`src` as the empty string) is not prepended at all by the code, while the
claim's step (a) would prepend the empty transduction and a blank line. -/
theorem C7_convert_counterexample :
    convert (fun s => Except.ok (if s = "<p>x</p>" then "BODY" else ""))
        "<p>x</p>" (some "<img>") =
      "BODY" ++ "\n\n" ++ generateFooter ∧
    convertClaimStated (fun s => Except.ok (if s = "<p>x</p>" then "BODY" else ""))
        "<p>x</p>" (some "<img>") =
      ("" ++ "\n\n" ++ "BODY") ++ "\n\n" ++ generateFooter ∧
    ¬ convert (fun s => Except.ok (if s = "<p>x</p>" then "BODY" else ""))
        "<p>x</p>" (some "<img>") =
      convertClaimStated (fun s => Except.ok (if s = "<p>x</p>" then "BODY" else ""))
        "<p>x</p>" (some "<img>") := by
  refine ⟨by decide, by decide, by decide⟩

set_option maxRecDepth 40000 in
/-- C9 (amended): the whitespace normalization that convert applies is
idempotent, but re-applying convert to its own output (the engine treated as
the identity on plain text, escaping aside) is not the identity: it leaves
the body unchanged and appends the blank line and the fixed footer section a
second time. -/
theorem C9_reapplication :
    (∀ s : String,
      normalizeNewlines (normalizeNewlines s) = normalizeNewlines s) ∧
    convert (fun t => Except.ok t) (convert (fun t => Except.ok t) "x" none)
        none =
      convert (fun t => Except.ok t) "x" none ++ "\n\n" ++ generateFooter := by
  constructor
  · exact normalizeNewlines_idem
  · decide

set_option maxRecDepth 40000 in
/-- Counterexample to C9 as stated: re-applying convert (with the engine as
the identity on plain text, so no escaping is involved at all) to its own
output is not a no-op — the footer is appended again. -/
theorem C9_counterexample :
    ¬ convert (fun t => Except.ok t)
        (convert (fun t => Except.ok t) "x" none) none =
      convert (fun t => Except.ok t) "x" none := by
  decide

/-! ## Claim C3: the batch loop -/

theorem processArticle_articles_ne (publish : Publish) (now : Nat)
    (s : LoopState) (a : Article) (k : String) (hk : ¬ a.id = k) :
    (processArticle publish now s a).articles k = s.articles k := by
  have hk2 : ¬ k = a.id := fun h => hk h.symm
  unfold processArticle
  cases hd : shouldSyncArticle a s.articles with
  | skip => rfl
  | create =>
    cases hp : publish a .create with
    | error e => simp [hp, setRecord, hk2]
    | ok q => simp [hp, setRecord, hk2]
  | update qid =>
    cases hp : publish a (.update qid) with
    | error e => simp [hp, setRecord, hk2]
    | ok q => simp [hp, setRecord, hk2]

theorem processArticle_articles_self_ok (publish : Publish) (now : Nat)
    (s : LoopState) (a : Article) (d : SyncDecision) (q : String)
    (hd : shouldSyncArticle a s.articles = d) (hne : ¬ d = .skip)
    (hp : publish a d = .ok q) :
    (processArticle publish now s a).articles a.id =
      some ⟨q, a.title, now, effectiveTimestamp a⟩ := by
  unfold processArticle
  rw [hd]
  cases d with
  | skip => exact absurd rfl hne
  | create => simp [hp, setRecord]
  | update qid => simp [hp, setRecord]

theorem processArticle_articles_self_error (publish : Publish) (now : Nat)
    (s : LoopState) (a : Article) (d : SyncDecision)
    (hd : shouldSyncArticle a s.articles = d) (hne : ¬ d = .skip)
    (hp : publish a d = .error ()) :
    (processArticle publish now s a).articles = s.articles := by
  unfold processArticle
  rw [hd]
  cases d with
  | skip => exact absurd rfl hne
  | create => simp [hp]
  | update qid => simp [hp]

theorem foldl_articles_ne (publish : Publish) (now : Nat) (k : String)
    (l : List Article) :
    ∀ s : LoopState, (∀ a ∈ l, ¬ a.id = k) →
      (l.foldl (processArticle publish now) s).articles k = s.articles k := by
  induction l with
  | nil => intro s _; rfl
  | cons a t ih =>
    intro s h
    rw [List.foldl_cons]
    rw [ih (processArticle publish now s a)
      (fun b hb => h b (List.mem_cons_of_mem a hb))]
    exact processArticle_articles_ne publish now s a k (h a (List.mem_cons_self a t))

theorem shouldSyncArticle_congr (a : Article) (m m' : ArticleMap)
    (h : m a.id = m' a.id) : shouldSyncArticle a m = shouldSyncArticle a m' := by
  unfold shouldSyncArticle
  rw [h]

/-- Specification-side predicate: the loop counts this item as an error —
it is not skipped and its publish fails. -/
def publishFails (publish : Publish) (m : ArticleMap) (a : Article) : Bool :=
  match shouldSyncArticle a m with
  | .skip => false
  | d =>
    match publish a d with
    | .error _ => true
    | .ok _ => false

theorem foldl_errorCount (publish : Publish) (now : Nat) (m0 : ArticleMap)
    (l : List Article) :
    ∀ s : LoopState, (l.map Article.id).Nodup →
      (∀ b ∈ l, s.articles b.id = m0 b.id) →
      (l.foldl (processArticle publish now) s).errorCount =
        s.errorCount + (l.filter (publishFails publish m0)).length := by
  induction l with
  | nil => intro s _ _; simp
  | cons a t ih =>
    intro s hnd hs
    have hdec : shouldSyncArticle a s.articles = shouldSyncArticle a m0 :=
      shouldSyncArticle_congr a _ _ (hs a (List.mem_cons_self a t))
    rw [List.map_cons, List.nodup_cons] at hnd
    obtain ⟨hna, hndt⟩ := hnd
    rw [List.foldl_cons, List.filter_cons]
    cases hd : shouldSyncArticle a m0 with
    | skip =>
      have hpf : publishFails publish m0 a = false := by
        unfold publishFails
        rw [hd]
      rw [hpf]
      have hstep : processArticle publish now s a = s := by
        unfold processArticle
        rw [hdec, hd]
      rw [hstep]
      simp only [if_neg (by simp : ¬ false = true)]
      exact ih s hndt (fun b hb => hs b (List.mem_cons_of_mem a hb))
    | create =>
      cases hp : publish a .create with
      | error u =>
        have hpf : publishFails publish m0 a = true := by
          unfold publishFails
          rw [hd]
          simp [hp]
        have hstep : processArticle publish now s a =
            { s with errorCount := s.errorCount + 1 } := by
          unfold processArticle
          rw [hdec, hd]
          simp [hp]
        rw [hpf, hstep, if_pos rfl]
        rw [ih { s with errorCount := s.errorCount + 1 } hndt
          (fun b hb => hs b (List.mem_cons_of_mem a hb))]
        simp only [List.length_cons]
        omega
      | ok q =>
        have hpf : publishFails publish m0 a = false := by
          unfold publishFails
          rw [hd]
          simp [hp]
        have hstep : processArticle publish now s a =
            { articles := setRecord s.articles a.id
                ⟨q, a.title, now, effectiveTimestamp a⟩
              syncCount := s.syncCount + 1
              errorCount := s.errorCount } := by
          unfold processArticle
          rw [hdec, hd]
          simp [hp]
        rw [hpf, hstep]
        simp only [if_neg (by simp : ¬ false = true)]
        refine ih _ hndt (fun b hb => ?_)
        have hbne : ¬ b.id = a.id := by
          intro he
          exact hna (he ▸ List.mem_map_of_mem Article.id hb)
        show setRecord s.articles a.id _ b.id = m0 b.id
        unfold setRecord
        rw [if_neg hbne]
        exact hs b (List.mem_cons_of_mem a hb)
    | update qid =>
      cases hp : publish a (.update qid) with
      | error u =>
        have hpf : publishFails publish m0 a = true := by
          unfold publishFails
          rw [hd]
          simp [hp]
        have hstep : processArticle publish now s a =
            { s with errorCount := s.errorCount + 1 } := by
          unfold processArticle
          rw [hdec, hd]
          simp [hp]
        rw [hpf, hstep, if_pos rfl]
        rw [ih { s with errorCount := s.errorCount + 1 } hndt
          (fun b hb => hs b (List.mem_cons_of_mem a hb))]
        simp only [List.length_cons]
        omega
      | ok q =>
        have hpf : publishFails publish m0 a = false := by
          unfold publishFails
          rw [hd]
          simp [hp]
        have hstep : processArticle publish now s a =
            { articles := setRecord s.articles a.id
                ⟨q, a.title, now, effectiveTimestamp a⟩
              syncCount := s.syncCount + 1
              errorCount := s.errorCount } := by
          unfold processArticle
          rw [hdec, hd]
          simp [hp]
        rw [hpf, hstep]
        simp only [if_neg (by simp : ¬ false = true)]
        refine ih _ hndt (fun b hb => ?_)
        have hbne : ¬ b.id = a.id := by
          intro he
          exact hna (he ▸ List.mem_map_of_mem Article.id hb)
        show setRecord s.articles a.id _ b.id = m0 b.id
        unfold setRecord
        rw [if_neg hbne]
        exact hs b (List.mem_cons_of_mem a hb)

/-- C3: in a batch run over items with distinct ids, an item whose publish
fails is counted as an error and gets no sync record written (its stored
record, if any, is untouched) while the loop continues; each successfully
published item ends the run with exactly one record, whose
`microCMSUpdatedAt` equals the item's effective timestamp at decision time;
the run's error count is exactly the number of failed non-skip items; a run
with at least one error still persists the history (with a fresh
`lastSyncTime`) and exits non-zero. -/
theorem C3_syncArticles_batch (publish : Publish) (now : Nat)
    (articles : List Article) (initial : SyncHistory) (a : Article)
    (hnd : ((articles.take maxArticles).map Article.id).Nodup)
    (ha : a ∈ articles.take maxArticles) :
    (¬ shouldSyncArticle a initial.articles = .skip →
      publish a (shouldSyncArticle a initial.articles) = .error () →
      (syncArticles publish now articles initial).persistedHistory.articles a.id =
        initial.articles a.id) ∧
    (∀ q, ¬ shouldSyncArticle a initial.articles = .skip →
      publish a (shouldSyncArticle a initial.articles) = .ok q →
      (syncArticles publish now articles initial).persistedHistory.articles a.id =
        some ⟨q, a.title, now, effectiveTimestamp a⟩) ∧
    (syncArticles publish now articles initial).errorCount =
      ((articles.take maxArticles).filter
        (publishFails publish initial.articles)).length ∧
    (0 < (syncArticles publish now articles initial).errorCount →
      (syncArticles publish now articles initial).exitCode = 1) ∧
    (syncArticles publish now articles initial).persistedHistory.lastSyncTime =
      some now := by
  obtain ⟨l1, l2, hsplit⟩ := List.append_of_mem ha
  have hnd2 := hnd
  rw [hsplit, List.map_append, List.map_cons] at hnd2
  rw [List.nodup_append] at hnd2
  obtain ⟨hnd_l1, hnd_al2, hdisj⟩ := hnd2
  rw [List.nodup_cons] at hnd_al2
  have hal2 : a.id ∉ l2.map Article.id := hnd_al2.1
  have hal1 : a.id ∉ l1.map Article.id := by
    intro hmem
    exact hdisj hmem (List.mem_cons_self a.id (l2.map Article.id))
  have h1ne : ∀ b ∈ l1, ¬ b.id = a.id := by
    intro b hb he
    exact hal1 (he ▸ List.mem_map_of_mem Article.id hb)
  have h2ne : ∀ b ∈ l2, ¬ b.id = a.id := by
    intro b hb he
    exact hal2 (he ▸ List.mem_map_of_mem Article.id hb)
  have hfold : (articles.take maxArticles).foldl (processArticle publish now)
      ⟨initial.articles, 0, 0⟩ =
      l2.foldl (processArticle publish now)
        (processArticle publish now
          (l1.foldl (processArticle publish now) ⟨initial.articles, 0, 0⟩) a) := by
    rw [hsplit, List.foldl_append, List.foldl_cons]
  have hs1 : (l1.foldl (processArticle publish now)
      ⟨initial.articles, 0, 0⟩).articles a.id = initial.articles a.id :=
    foldl_articles_ne publish now a.id l1 _ h1ne
  have hdec : shouldSyncArticle a
      (l1.foldl (processArticle publish now)
        ⟨initial.articles, 0, 0⟩).articles =
      shouldSyncArticle a initial.articles :=
    shouldSyncArticle_congr a _ _ hs1
  refine ⟨?_, ?_, ?_, ?_, rfl⟩
  · intro hne hp
    show ((articles.take maxArticles).foldl (processArticle publish now)
      ⟨initial.articles, 0, 0⟩).articles a.id = initial.articles a.id
    rw [hfold]
    rw [foldl_articles_ne publish now a.id l2 _ h2ne]
    rw [processArticle_articles_self_error publish now _ a
      (shouldSyncArticle a initial.articles) hdec hne hp]
    exact hs1
  · intro q hne hp
    show ((articles.take maxArticles).foldl (processArticle publish now)
      ⟨initial.articles, 0, 0⟩).articles a.id =
      some ⟨q, a.title, now, effectiveTimestamp a⟩
    rw [hfold]
    rw [foldl_articles_ne publish now a.id l2 _ h2ne]
    exact processArticle_articles_self_ok publish now _ a
      (shouldSyncArticle a initial.articles) q hdec hne hp
  · show ((articles.take maxArticles).foldl (processArticle publish now)
      ⟨initial.articles, 0, 0⟩).errorCount = _
    rw [foldl_errorCount publish now initial.articles (articles.take maxArticles)
      ⟨initial.articles, 0, 0⟩ hnd (fun _ _ => rfl)]
    simp
  · intro hpos
    have hpos2 : ((articles.take maxArticles).foldl (processArticle publish now)
        ⟨initial.articles, 0, 0⟩).errorCount > 0 := hpos
    show (if ((articles.take maxArticles).foldl (processArticle publish now)
      ⟨initial.articles, 0, 0⟩).errorCount > 0 then 1 else 0) = 1
    rw [if_pos hpos2]

/-- Concrete publisher for the C3 witness: publishing the article with id
`bad` fails, every other article is assigned a remote id. -/
def pubW : Publish := fun a _ =>
  if a.id = "bad" then Except.error () else Except.ok ("q-" ++ a.id)

/-- Concrete article batch for the C3 witness. -/
def artsW : List Article :=
  [⟨"a1", "T1", some 5, none, some 1⟩,
   ⟨"bad", "T2", some 7, none, none⟩,
   ⟨"a3", "T3", none, some 2, none⟩]

/-- Concrete empty initial history for the C3 witness. -/
def initW : SyncHistory := ⟨none, fun _ => none⟩

/-- Witness for C3: in a run where the middle item fails to publish, the
item after it is still published and recorded with its effective
timestamp. -/
theorem C3_syncArticles_batch_witness :
    (syncArticles pubW 100 artsW initW).persistedHistory.articles "a3" =
      some ⟨"q-a3", "T3", 100, some 2⟩ :=
  (C3_syncArticles_batch pubW 100 artsW initW ⟨"a3", "T3", none, some 2, none⟩
      (by decide) (by decide)).2.1 "q-a3" (by decide) rfl

end SyncToQiita
